import Mathlib

/-!
# Streaming chat client (`web/chat_1.js`): model and verified properties

The file embeds the session engine of `web/chat_1.js` (the Vue `setup()` closure):
the reactive refs become one record `ChatState`, every `async` handler becomes a
function from the state it finds and the answers of the outside world (clock
readings, upload outcomes, the HTTP response and its chunks) to the state it leaves.

JavaScript strings are lists of characters.  The response body is modelled after
`TextDecoder.decode(value, {stream: true})`, i.e. as the list of decoded text chunks.
`JSON.parse` is a built-in of the platform: it is a parameter of the model, see `Payload`.
-/

namespace SmallPlatform

/-- JavaScript strings, as lists of characters. -/
abbrev Str := List Char

/-! ## Data model -/

/-- One entry of `messages.value`: `{ id, role, content, streaming }`. -/
structure Message where
  id : Nat
  role : Str
  content : Str
  streaming : Bool
deriving DecidableEq, Repr

/-- One entry of `uploadedFiles.value` (`handleFileUpload`, lines 84-90).  The key
`id` stands for `Date.now() + Math.random()`; the `File` handle itself is not modelled. -/
structure StagedFile where
  id : Nat
  name : Str
  size : Nat
deriving DecidableEq, Repr

/-- A session as listed by the backend; `switchSession` reads `SessionID` and `ModelName`. -/
structure Session where
  SessionID : Str
  ModelName : Str
deriving DecidableEq, Repr

/-- One element of the history returned by `fetchSessionMessages`. -/
structure HistoryMessage where
  role : Str
  content : Str
deriving DecidableEq, Repr

/-- The refs of `setup()` that the handlers read or write. -/
structure ChatState where
  sessions : List Session
  selectedModel : Str
  sessionId : Str
  messages : List Message
  inputMessage : Str
  isTyping : Bool
  selectedPersona : Str
  uploadedFiles : List StagedFile
deriving DecidableEq, Repr

/-- The state right after `setup()`: every ref at its initial value. -/
def initialState : ChatState :=
  { sessions := [], selectedModel := [], sessionId := [], messages := [],
    inputMessage := [], isTyping := false, selectedPersona := [], uploadedFiles := [] }

/-! ## String helpers of the platform -/

/-- Code points that `String.prototype.trim` strips (WhiteSpace and LineTerminator). -/
def isJsSpace (c : Char) : Bool :=
  [0x09, 0x0A, 0x0B, 0x0C, 0x0D, 0x20, 0xA0, 0x1680, 0x2028, 0x2029, 0x202F, 0x205F,
    0x3000, 0xFEFF].contains c.toNat || (0x2000 ≤ c.toNat && c.toNat ≤ 0x200A)

/-- The method `s.trim()`. -/
def trim (s : Str) : Str :=
  ((s.dropWhile isJsSpace).reverse.dropWhile isJsSpace).reverse

/-- The method `s.startsWith(p)`. -/
def startsWith (s p : Str) : Bool := p.isPrefixOf s

/-- The call `buffer.split('\n')`: the pieces between line breaks, never an empty array. -/
def split : Str → List Str
  | [] => [[]]
  | c :: cs =>
    if c = '\n' then [] :: split cs
    else
      match split cs with
      | [] => [[c]]
      | l :: ls => (c :: l) :: ls

/-- The call `names.join(sep)`. -/
def joinWith (sep : Str) : List Str → Str
  | [] => []
  | [a] => a
  | a :: b :: rest => a ++ sep ++ joinWith sep (b :: rest)

/-! ## Decoding one line of the event stream (lines 297-330) -/

/-- What the loop body reads off the value returned by `JSON.parse(dataStr)`:
`content` is `none` when `data.content === undefined`, otherwise the text that
`aiMsg.content += data.content` appends; `done` is the truthiness of `data.done`;
`error` is `some e` when `data.error` is truthy, `e` being the message of
`new Error(data.error)`. -/
structure Payload where
  content : Option Str
  done : Bool
  error : Option Str
deriving DecidableEq, Repr

/-- The built-in `JSON.parse` followed by the property reads of the loop body.
`none` stands for an exception thrown before any effect (a `SyntaxError`, or the
`TypeError` of reading a property of `null`). -/
abbrev Decoder := Str → Option Payload

/-- Trace of the branches taken at lines 305, 314 and 323. -/
inductive Event where
  | contentDelta (text : Str)
  | done
  | error (text : Str)
deriving DecidableEq, Repr

/-- What the read loop mutates: the message list, and the trace of decoded events. -/
structure LoopState where
  messages : List Message
  events : List Event
deriving DecidableEq, Repr

/-- The idiom `const m = messages.value.find(msg => msg.id === id); if (m) { f(m) }`:
the first message carrying the id is updated in place, nothing happens without one. -/
def updateFirst (id : Nat) (f : Message → Message) : List Message → List Message
  | [] => []
  | m :: ms => if m.id = id then f m :: ms else m :: updateFirst id f ms

/-- Lines 305-312: `aiMsg.content += data.content`. -/
def appendContent (id : Nat) (text : Str) (ms : List Message) : List Message :=
  updateFirst id (fun m => { m with content := m.content ++ text }) ms

/-- Lines 316-319: `aiMsg.streaming = false`. -/
def stopStreaming (id : Nat) (ms : List Message) : List Message :=
  updateFirst id (fun m => { m with streaming := false }) ms

/-- The literal `'data: '`. -/
def dataTag : Str := "data: ".toList

/-- Body of `for (const line of lines)` (lines 298-329).  The boolean is `true` when
the `break` of line 320 was executed.  A `continue`, a line without the tag, an exception
of `JSON.parse` and the `throw` of line 324 all end in the inner `catch` of line 326 or
fall through: the loop goes on with the next line. -/
def processLine (parse : Decoder) (aiMessageId : Nat) (line : Str) (s : LoopState) :
    LoopState × Bool :=
  if startsWith line dataTag then
    let dataStr := line.drop 6
    if trim dataStr = [] then (s, false)
    else
      match parse dataStr with
      | none => (s, false)
      | some data =>
        let s1 : LoopState :=
          match data.content with
          | some text =>
            { messages := appendContent aiMessageId text s.messages,
              events := s.events ++ [Event.contentDelta text] }
          | none => s
        if data.done then
          ({ messages := stopStreaming aiMessageId s1.messages,
             events := s1.events ++ [Event.done] }, true)
        else
          match data.error with
          | some e => ({ s1 with events := s1.events ++ [Event.error e] }, false)
          | none => (s1, false)
  else (s, false)

/-- The loop `for (const line of lines) { ... }` with its `break`. -/
def processLines (parse : Decoder) (aiMessageId : Nat) : List Str → LoopState → LoopState
  | [], s => s
  | line :: rest, s =>
    match processLine parse aiMessageId line s with
    | (s1, true) => s1
    | (s1, false) => processLines parse aiMessageId rest s1

/-- The loop `while (true)` of lines 285-331 over the chunks the reader delivers, up to
the read that reports `done`.  `buffer` is the variable of line 283. -/
def readLoop (parse : Decoder) (aiMessageId : Nat) : List Str → Str → LoopState → LoopState
  | [], _, s => s
  | value :: later, buffer, s =>
    let buffer1 := buffer ++ value
    let lines := split buffer1
    let buffer2 := lines.getLast?.getD []
    readLoop parse aiMessageId later buffer2 (processLines parse aiMessageId lines.dropLast s)

/-! ## Attachments (lines 101-126) -/

/-- Outcome of one `axios.post` to `/files/upload`.  `failed` is every way into the
`catch` of line 119 (the request rejects, or `response.data` cannot be read);
`responded` is a resolved request, carrying `response.data.file_id` when present. -/
inductive UploadOutcome where
  | failed
  | responded (file_id : Option Str)
deriving DecidableEq, Repr

/-- The literal in front of the file name in the `alert` of line 121. -/
def uploadFailedText : Str := "文件上传失败: ".toList

/-- What `uploadFiles` returns (`fileIDs`) and what it does on the way: the form data it
posted (`file`, `session_id`) and the alerts it raised, both in program order. -/
structure UploadResult where
  fileIDs : List Str
  alerts : List Str
  posted : List (StagedFile × Str)
deriving DecidableEq, Repr

/-- The loop `for (const fileInfo of uploadedFiles.value)`; `k` counts the requests made
so far and `post k` is the outcome of the next one. -/
def uploadLoop (post : Nat → UploadOutcome) (sessionID : Str) :
    Nat → List StagedFile → UploadResult → UploadResult
  | _, [], r => r
  | k, fileInfo :: rest, r =>
    let r1 : UploadResult := { r with posted := r.posted ++ [(fileInfo, sessionID)] }
    let r2 : UploadResult :=
      match post k with
      | UploadOutcome.responded (some file_id) =>
        if file_id ≠ [] then { r1 with fileIDs := r1.fileIDs ++ [file_id] } else r1
      | UploadOutcome.responded none => r1
      | UploadOutcome.failed => { r1 with alerts := r1.alerts ++ [uploadFailedText ++ fileInfo.name] }
    uploadLoop post sessionID (k + 1) rest r2

/-- The function `uploadFiles(sessionID)` run on the staged list. -/
def uploadFiles (post : Nat → UploadOutcome) (sessionID : Str) (staged : List StagedFile) :
    UploadResult :=
  uploadLoop post sessionID 0 staged { fileIDs := [], alerts := [], posted := [] }

/-! ## One turn: `sendMessage` (lines 224-349) -/

/-- Answer of `fetch` to the stream request.  `rejected` is a rejected promise with the
message of its error.  `received` is a response with its status, the text chunks the
reader delivers, and how the body ends: `none` when a read reports `done`, `some m` when
a read throws an error with message `m` (a missing body, `response.body === null`, is
`received status [] (some m)`). -/
inductive Response where
  | rejected (message : Str)
  | received (status : Nat) (chunks : List Str) (failure : Option Str)
deriving DecidableEq, Repr

/-- The getter `response.ok`. -/
def Response.isOk (status : Nat) : Bool := 200 ≤ status && status ≤ 299

/-- Everything one call of `sendMessage` obtains from outside: the outcome of each upload
request, the two readings of `Date.now()` (lines 239 and 249), the answer to the stream
request, and the answer to the `fetchSessions` of line 336 (`none` when it fails). -/
structure TurnEnv where
  upload : Nat → UploadOutcome
  now1 : Nat
  now2 : Nat
  response : Response
  sessions : Option (List Session)

/-- JSON body of the request of lines 266-272. -/
structure StreamRequest where
  session_id : Str
  model_name : Str
  message : Str
  persona : Str
  file_ids : List Str
deriving DecidableEq, Repr

/-- State after a call of `sendMessage`, with what the call did on the way: the stream
request it issued (if any), the uploads it posted, its alerts, its decoded events. -/
structure Turn where
  state : ChatState
  request : Option StreamRequest
  posted : List (StagedFile × Str)
  alerts : List Str
  events : List Event
deriving DecidableEq, Repr

/-- The literal of line 342. -/
def apology : Str := "抱歉，发生了错误: ".toList

/-- The outer `catch` of lines 337-345, on the message list. -/
def failTurn (aiMessageId : Nat) (message : Str) (ms : List Message) : List Message :=
  updateFirst aiMessageId (fun m => { m with content := apology ++ message, streaming := false }) ms

/-- The message of the error thrown at line 276. -/
def httpErrorText (status : Nat) : Str := "HTTP error! status: ".toList ++ (Nat.repr status).toList

/-- The function `fetchSessions` (lines 139-146) given the answer of the backend. -/
def fetchSessions (answer : Option (List Session)) (st : ChatState) : ChatState :=
  match answer with
  | some listed => { st with sessions := listed }
  | none => st

/-- The condition under which line 225 returns at once. -/
def guardRejects (st : ChatState) : Bool :=
  (trim st.inputMessage == [] && st.uploadedFiles.length == 0) || st.sessionId == [] || st.isTyping

/-- The content of the user message pushed at lines 238-243. -/
def userContent (userMessage : Str) (staged : List StagedFile) : Str :=
  userMessage ++
    (if staged.length > 0 then
      " [附件: ".toList ++ joinWith ", ".toList (staged.map (fun f => f.name)) ++ "]".toList
    else [])

/-- The function `sendMessage`, run without any other handler interleaved at its awaits. -/
def sendMessage (parse : Decoder) (env : TurnEnv) (st : ChatState) : Turn :=
  if guardRejects st then
    { state := st, request := none, posted := [], alerts := [], events := [] }
  else
    let userMessage := trim st.inputMessage
    let up : UploadResult :=
      if st.uploadedFiles.length > 0 then uploadFiles env.upload st.sessionId st.uploadedFiles
      else { fileIDs := [], alerts := [], posted := [] }
    let userMsg : Message :=
      { id := env.now1, role := "user".toList,
        content := userContent userMessage st.uploadedFiles, streaming := false }
    let aiMessageId := env.now2 + 1
    let aiMessage : Message :=
      { id := aiMessageId, role := "assistant".toList, content := [], streaming := true }
    let st1 : ChatState :=
      { st with inputMessage := [], messages := st.messages ++ [userMsg] ++ [aiMessage],
                isTyping := true }
    let request : StreamRequest :=
      { session_id := st.sessionId, model_name := st.selectedModel, message := userMessage,
        persona := st.selectedPersona, file_ids := up.fileIDs }
    match env.response with
    | Response.rejected message =>
      { state := { st1 with messages := failTurn aiMessageId message st1.messages,
                            isTyping := false },
        request := some request, posted := up.posted, alerts := up.alerts, events := [] }
    | Response.received status chunks failure =>
      if Response.isOk status then
        let s := readLoop parse aiMessageId chunks [] { messages := st1.messages, events := [] }
        match failure with
        | some message =>
          { state := { st1 with messages := failTurn aiMessageId message s.messages,
                                isTyping := false },
            request := some request, posted := up.posted, alerts := up.alerts,
            events := s.events }
        | none =>
          { state := { fetchSessions env.sessions
                         { st1 with messages := s.messages, uploadedFiles := [] } with
                       isTyping := false },
            request := some request, posted := up.posted, alerts := up.alerts,
            events := s.events }
      else
        { state := { st1 with messages := failTurn aiMessageId (httpErrorText status) st1.messages,
                              isTyping := false },
          request := some request, posted := up.posted, alerts := up.alerts, events := [] }

/-! ## Session handlers (lines 160-221) -/

/-- The call `sessionMessages.map((msg, index) => ...)` of lines 190-195, `index`
starting at `i`; `clock index` is the reading of `Date.now()` in that callback. -/
def freshMessages (clock : Nat → Nat) : Nat → List HistoryMessage → List Message
  | _, [] => []
  | i, msg :: rest =>
    { id := clock i + i, role := msg.role, content := msg.content, streaming := false } ::
      freshMessages clock (i + 1) rest

/-- The function `switchSession(session)`; `history` is the answer of the backend to
`fetchSessionMessages` (`none` when the request fails, which yields `[]`). -/
def switchSession (session : Session) (history : Option (List HistoryMessage))
    (clock : Nat → Nat) (st : ChatState) : ChatState :=
  if session.SessionID = st.sessionId then st
  else
    { st with sessionId := session.SessionID, selectedModel := session.ModelName,
              messages := freshMessages clock 0 (history.getD []) }

/-- The function `createNewSession`; `created` is the `session_id` of the answer, `none`
when the request fails, and `listed` the answer to the `fetchSessions` that follows. -/
def createNewSession (created : Option Str) (listed : Option (List Session))
    (st : ChatState) : ChatState :=
  if st.selectedModel = [] then st
  else
    match created with
    | some session_id => fetchSessions listed { st with sessionId := session_id, messages := [] }
    | none => st

/-- The function `deleteSession(sessionID)`; `confirmed` is the answer to `confirm`,
`deleted` whether the DELETE request succeeded. -/
def deleteSession (sessionID : Str) (confirmed deleted : Bool) (listed : Option (List Session))
    (st : ChatState) : ChatState :=
  if !confirmed then st
  else if deleted then
    fetchSessions listed
      (if sessionID = st.sessionId then { st with sessionId := [], messages := [] } else st)
  else st

/-- What can happen to the state between two handlers: the handlers themselves, and the
writes of the page to the refs it is given (`inputMessage`, `selectedModel`,
`selectedPersona`, and the staging of a file by `handleFileUpload`). -/
inductive Op where
  | typeInput (text : Str)
  | selectModel (name : Str)
  | selectPersona (name : Str)
  | stageFile (file : StagedFile)
  | send (env : TurnEnv)
  | switch (session : Session) (history : Option (List HistoryMessage)) (clock : Nat → Nat)
  | create (created : Option Str) (listed : Option (List Session))
  | delete (sessionID : Str) (confirmed deleted : Bool) (listed : Option (List Session))

/-- One operation on the state. -/
def step (parse : Decoder) (st : ChatState) : Op → ChatState
  | Op.typeInput text => { st with inputMessage := text }
  | Op.selectModel name => { st with selectedModel := name }
  | Op.selectPersona name => { st with selectedPersona := name }
  | Op.stageFile file => { st with uploadedFiles := st.uploadedFiles ++ [file] }
  | Op.send env => (sendMessage parse env st).state
  | Op.switch session history clock => switchSession session history clock st
  | Op.create created listed => createNewSession created listed st
  | Op.delete sessionID confirmed deleted listed =>
    deleteSession sessionID confirmed deleted listed st

/-- A sequence of operations from a state. -/
def run (parse : Decoder) (st : ChatState) (ops : List Op) : ChatState :=
  ops.foldl (step parse) st

/-! ## A decoder for the payloads of the wire protocol -/

/-- The text between `opening` and `closing` when `s` is `opening ++ body ++ closing` and
`body` has no quote, no backslash and no control character. -/
def between (opening closing s : Str) : Option Str :=
  let rest := s.drop opening.length
  let body := rest.take (rest.length - closing.length)
  if startsWith s opening && rest.drop (rest.length - closing.length) == closing
      && closing.length ≤ rest.length
      && body.all (fun c => c != '"' && c != '\\' && 0x20 ≤ c.toNat) then
    some body
  else none

/-- The decoder used at concrete inputs.  It reads the three payload spellings of the
wire format as `JSON.parse` does:
`{"content":"t"}`, `{"done":true}` and `{"error":"e"}`, with `t` and `e` free of
escapes.  Every other text is taken as undecodable, which is what `JSON.parse` does on the
texts that are not JSON; nothing is claimed about it on other JSON texts. -/
def wireParse : Decoder := fun s =>
  if s = "\x7b\"done\":true\x7d".toList then some { content := none, done := true, error := none }
  else
    match between "\x7b\"content\":\"".toList "\"\x7d".toList s with
    | some t => some { content := some t, done := false, error := none }
    | none =>
      match between "\x7b\"error\":\"".toList "\"\x7d".toList s with
      | some e => some { content := none, done := false, error := if e = [] then none else some e }
      | none => none

/-! ## Vocabulary of the properties -/

/-- Text made of the lines `ls`, each followed by a line break, and then `rest`. -/
def unsplit : List Str → Str → Str
  | [], rest => rest
  | l :: ls, rest => l ++ '\n' :: unsplit ls rest

/-- Whether the loop body executes its `break` on `line`. -/
def breaksLoop (parse : Decoder) (line : Str) : Bool :=
  startsWith line dataTag && (trim (line.drop 6) != []) &&
    (match parse (line.drop 6) with
     | some data => data.done
     | none => false)

/-- No line but the last one makes the loop body `break`. -/
def doneOnlyLast (parse : Decoder) : List Str → Bool
  | [] => true
  | [_] => true
  | l :: m :: rest => !breaksLoop parse l && doneOnlyLast parse (m :: rest)

/-- The candidate line `data: <payload>`, without its line break. -/
def eventLine (payload : Str) : Str := dataTag ++ payload

/-- The body made of the lines `data: <payload>`, each terminated by a line break. -/
def streamBody (payloads : List Str) : Str :=
  (payloads.map (fun p => eventLine p ++ ['\n'])).flatten

/-- The payload `{"done":true}`. -/
def donePayload : Str := "\x7b\"done\":true\x7d".toList

/-- The chunks of a body from which the `len` characters at offset `pos` were removed,
every other character staying in the chunk that delivered it. -/
def dropSeg : Nat → Nat → List Str → List Str
  | _, _, [] => []
  | pos, len, c :: cs =>
    (c.take pos ++ c.drop (pos + len)) :: dropSeg (pos - c.length) (len - (c.length - pos)) cs

/-- The id an upload contributes to the returned array: the `file_id` of a resolved
request when it is truthy (line 116). -/
def acceptedId : UploadOutcome → Option Str
  | UploadOutcome.responded (some file_id) => if file_id ≠ [] then some file_id else none
  | _ => none

/-- The truthy ids of the resolved uploads, in staged order; `k` is the number of the
request of the first file. -/
def acceptedIds (post : Nat → UploadOutcome) : Nat → List StagedFile → List Str
  | _, [] => []
  | k, _ :: rest => (acceptedId (post k)).toList ++ acceptedIds post (k + 1) rest

/-- The `file_id` of every resolved upload that carries one, truthy or not, in staged
order: the remote ids of the uploads that succeeded. -/
def respondedIds (post : Nat → UploadOutcome) : Nat → List StagedFile → List Str
  | _, [] => []
  | k, _ :: rest =>
    (match post k with
      | UploadOutcome.responded (some file_id) => [file_id]
      | _ => []) ++ respondedIds post (k + 1) rest

/-- The names of the files whose upload failed, in staged order. -/
def failedNames (post : Nat → UploadOutcome) : Nat → List StagedFile → List Str
  | _, [] => []
  | k, f :: rest =>
    (if post k = UploadOutcome.failed then [f.name] else []) ++ failedNames post (k + 1) rest

/-! ## Concrete inputs -/

/-- A state in which a turn can start: session `s1` is active and `hi` is typed. -/
def readyState : ChatState :=
  { initialState with
    selectedModel := "m".toList, sessionId := "s1".toList, inputMessage := "hi".toList }

/-- The surroundings of a turn at clock reading 1000 with the given answer of `fetch`. -/
def turnEnv (response : Response) : TurnEnv :=
  { upload := fun _ => UploadOutcome.failed, now1 := 1000, now2 := 1000,
    response := response, sessions := none }

/-- The payload `{"content":"x"}`. -/
def xPayload : Str := "\x7b\"content\":\"x\"\x7d".toList

/-- The payload `{"error":"boom"}`. -/
def boomPayload : Str := "\x7b\"error\":\"boom\"\x7d".toList

/-- The text `{not json`. -/
def notJson : Str := "\x7bnot json".toList

/-- The assistant message of a turn started at clock reading 1000. -/
def aiMessage (content : Str) (streaming : Bool) : Message :=
  { id := 1001, role := "assistant".toList, content := content, streaming := streaming }

/-- The body of the scenario: deltas `H`, `i`, then `done`, cut inside the tag, inside the
JSON text and right before a line break. -/
def hiChunks : List Str :=
  ["da".toList, "ta: \x7b\"con".toList, "tent\":\"H\"\x7d\ndata: \x7b\"content\":\"i\"\x7d".toList,
   "\n".toList, "data: \x7b\"done\":true\x7d\n".toList]

/-- The frames of the scenario: payload text and the delta it decodes to. -/
def hiFrames : List (Str × Str) :=
  [("\x7b\"content\":\"H\"\x7d".toList, "H".toList), ("\x7b\"content\":\"i\"\x7d".toList, "i".toList)]

/-- A history of five messages. -/
def fiveMessages : List HistoryMessage :=
  [{ role := "user".toList, content := "q0".toList },
   { role := "assistant".toList, content := "a0".toList },
   { role := "user".toList, content := "q1".toList },
   { role := "assistant".toList, content := "a1".toList },
   { role := "user".toList, content := "q2".toList }]

/-- The state after switching, at clock reading 1000, to a session with five messages
(local ids 1000 to 1004) and typing `hi`. -/
def switchedState : ChatState :=
  run wireParse initialState
    [Op.switch { SessionID := "s1".toList, ModelName := "m".toList } (some fiveMessages)
       (fun _ => 1000),
     Op.typeInput "hi".toList]

/-- Three staged files. -/
def threeFiles : List StagedFile :=
  [{ id := 1, name := "a.txt".toList, size := 10 },
   { id := 2, name := "b.txt".toList, size := 20 },
   { id := 3, name := "c.txt".toList, size := 30 }]

/-- Upload outcomes: the second request fails, the others return `f1` and `f3`. -/
def secondFails : Nat → UploadOutcome
  | 0 => UploadOutcome.responded (some "f1".toList)
  | 1 => UploadOutcome.failed
  | _ => UploadOutcome.responded (some "f3".toList)

/-- The ready state with the three files staged. -/
def stagedState : ChatState := { readyState with uploadedFiles := threeFiles }

/-! ## Lemmas on lines, chunks and the read loop -/

theorem split_ne_nil (t : Str) : split t ≠ [] := by
  cases t with
  | nil => simp [split]
  | cons c cs =>
    unfold split
    split
    · simp
    · split <;> simp

theorem split_of_not_mem {a : Str} (h : '\n' ∉ a) : split a = [a] := by
  induction a with
  | nil => rfl
  | cons c cs ih =>
    have hc : c ≠ '\n' := fun e => h (by simp [e])
    have hcs : '\n' ∉ cs := fun e => h (by simp [e])
    simp [split, hc, ih hcs]

theorem split_append_newline {a : Str} (b : Str) (h : '\n' ∉ a) :
    split (a ++ '\n' :: b) = a :: split b := by
  induction a with
  | nil => simp [split]
  | cons c cs ih =>
    have hc : c ≠ '\n' := fun e => h (by simp [e])
    have hcs : '\n' ∉ cs := fun e => h (by simp [e])
    simp [split, hc, ih hcs]

theorem split_unsplit {ls : List Str} (z : Str) (h : ∀ l ∈ ls, '\n' ∉ l) :
    split (unsplit ls z) = ls ++ split z := by
  induction ls with
  | nil => rfl
  | cons l ls ih =>
    have hl : '\n' ∉ l := h l (by simp)
    have hls : ∀ x ∈ ls, '\n' ∉ x := fun x hx => h x (by simp [hx])
    simp [unsplit, split_append_newline _ hl, ih hls]

theorem unsplit_append (ls : List Str) (z y : Str) : unsplit ls z ++ y = unsplit ls (z ++ y) := by
  induction ls with
  | nil => rfl
  | cons l ls ih => simp [unsplit, ih]

theorem unsplit_append_lines (a b : List Str) (z : Str) :
    unsplit (a ++ b) z = unsplit a (unsplit b z) := by
  induction a with
  | nil => rfl
  | cons l ls ih => simp [unsplit, ih]

theorem exists_unsplit (t : Str) :
    ∃ ls f, (∀ l ∈ ls, '\n' ∉ l) ∧ '\n' ∉ f ∧ t = unsplit ls f := by
  induction t with
  | nil => exact ⟨[], [], by simp, by simp, rfl⟩
  | cons c cs ih =>
    obtain ⟨ls, f, hls, hf, rfl⟩ := ih
    by_cases hc : c = '\n'
    · subst hc
      refine ⟨[] :: ls, f, ?_, hf, by simp [unsplit]⟩
      intro l hl
      rcases List.mem_cons.1 hl with rfl | hl
      · simp
      · exact hls l hl
    · cases ls with
      | nil =>
        refine ⟨[], c :: f, by simp, ?_, by simp [unsplit]⟩
        intro h
        rcases List.mem_cons.1 h with h | h
        · exact hc h.symm
        · exact hf h
      | cons l ls =>
        refine ⟨(c :: l) :: ls, f, ?_, hf, by simp [unsplit]⟩
        intro x hx
        rcases List.mem_cons.1 hx with rfl | hx
        · intro h
          rcases List.mem_cons.1 h with h | h
          · exact hc h.symm
          · exact hls l (by simp) h
        · exact hls x (by simp [hx])

theorem readLoop_cons (parse : Decoder) (id : Nat) {ls : List Str} {f buffer c : Str}
    (cs : List Str) (s : LoopState) (hls : ∀ l ∈ ls, '\n' ∉ l) (hf : '\n' ∉ f)
    (h : buffer ++ c = unsplit ls f) :
    readLoop parse id (c :: cs) buffer s = readLoop parse id cs f (processLines parse id ls s) := by
  simp only [readLoop, h, split_unsplit f hls, split_of_not_mem hf]
  simp

theorem readLoop_cons_of_not_mem (parse : Decoder) (id : Nat) {buffer c : Str}
    (cs : List Str) (s : LoopState) (h : '\n' ∉ buffer ++ c) :
    readLoop parse id (c :: cs) buffer s = readLoop parse id cs (buffer ++ c) s := by
  have := readLoop_cons parse id cs s (List.forall_mem_nil _) h (rfl : buffer ++ c = unsplit [] (buffer ++ c))
  simpa [processLines] using this

theorem processLine_snd (parse : Decoder) (id : Nat) (line : Str) (s : LoopState) :
    (processLine parse id line s).2 = breaksLoop parse line := by
  unfold processLine breaksLoop
  by_cases h1 : startsWith line dataTag = true
  · by_cases h2 : trim (List.drop 6 line) = []
    · simp [h1, h2]
    · cases hp : parse (List.drop 6 line) with
      | none => simp [h1, h2, hp]
      | some data =>
        by_cases hd : data.done = true
        · simp [h1, h2, hp, hd]
        · cases he : data.error <;> simp [h1, h2, hp, hd, he]
  · simp [h1]

theorem processLines_cons_of_not_breaks (parse : Decoder) (id : Nat) {l : Str}
    (rest : List Str) (s : LoopState) (h : breaksLoop parse l = false) :
    processLines parse id (l :: rest) s =
      processLines parse id rest (processLine parse id l s).1 := by
  have h2 := processLine_snd parse id l s
  rw [h] at h2
  rw [processLines]
  cases hp : processLine parse id l s with
  | mk s1 b =>
    rw [hp] at h2
    simp only at h2
    subst h2
    rfl

theorem processLines_append (parse : Decoder) (id : Nat) {a : List Str} (b : List Str)
    (s : LoopState) (h : ∀ l ∈ a, breaksLoop parse l = false) :
    processLines parse id (a ++ b) s = processLines parse id b (processLines parse id a s) := by
  induction a generalizing s with
  | nil => rfl
  | cons l ls ih =>
    have hl := h l (by simp)
    have hls : ∀ x ∈ ls, breaksLoop parse x = false := fun x hx => h x (by simp [hx])
    rw [List.cons_append, processLines_cons_of_not_breaks _ _ _ _ hl,
      processLines_cons_of_not_breaks _ _ _ _ hl, ih _ hls]

theorem doneOnlyLast_append (parse : Decoder) {a b : List Str}
    (h : doneOnlyLast parse (a ++ b) = true) :
    doneOnlyLast parse b = true ∧ (b ≠ [] → ∀ l ∈ a, breaksLoop parse l = false) := by
  induction a with
  | nil => exact ⟨h, by simp⟩
  | cons l ls ih =>
    cases hx : ls ++ b with
    | nil =>
      have h1 : ls = [] := (List.append_eq_nil.1 hx).1
      have h2 : b = [] := (List.append_eq_nil.1 hx).2
      subst h1 h2
      exact ⟨rfl, fun hb => absurd rfl hb⟩
    | cons m rest =>
      rw [List.cons_append, hx, doneOnlyLast, Bool.and_eq_true] at h
      rw [← hx] at h
      obtain ⟨h3, h4⟩ := ih h.2
      refine ⟨h3, fun hb x hx2 => ?_⟩
      rcases List.mem_cons.1 hx2 with rfl | hx2
      · simpa using h.1
      · exact h4 hb x hx2

theorem newline_mem_unsplit_cons (l : Str) (ls : List Str) (z : Str) :
    '\n' ∈ unsplit (l :: ls) z := by
  simp [unsplit]

theorem unsplit_inj {A B : List Str} {a b : Str} (hA : ∀ l ∈ A, '\n' ∉ l)
    (hB : ∀ l ∈ B, '\n' ∉ l) (ha : '\n' ∉ a) (hb : '\n' ∉ b)
    (h : unsplit A a = unsplit B b) : A = B ∧ a = b := by
  have h2 := congrArg split h
  rw [split_unsplit _ hA, split_unsplit _ hB, split_of_not_mem ha, split_of_not_mem hb] at h2
  obtain ⟨h3, h4⟩ := List.append_inj' h2 rfl
  exact ⟨h3, by simpa using h4⟩

/-- Chunking does not matter for a body in which no line but the last complete one
carries `done`: the read loop then amounts to one pass over the complete lines. -/
theorem readLoop_eq_processLines (parse : Decoder) (id : Nat) :
    ∀ (chunks : List Str) (buffer : Str) (s : LoopState) (M : List Str) (z : Str),
      '\n' ∉ buffer → (∀ l ∈ M, '\n' ∉ l) → '\n' ∉ z →
      buffer ++ chunks.flatten = unsplit M z → doneOnlyLast parse M = true →
      readLoop parse id chunks buffer s = processLines parse id M s := by
  intro chunks
  induction chunks with
  | nil =>
    intro buffer s M z hb hM hz h hd
    cases M with
    | nil => rfl
    | cons l ls =>
      exfalso
      apply hb
      simp only [List.flatten_nil, List.append_nil] at h
      rw [h]
      exact newline_mem_unsplit_cons l ls z
  | cons c cs ih =>
    intro buffer s M z hb hM hz h hd
    obtain ⟨ls, f, hls, hf, hbc⟩ := exists_unsplit (buffer ++ c)
    obtain ⟨M2, z2, hM2, hz2, hrest⟩ := exists_unsplit (f ++ cs.flatten)
    have key : unsplit (ls ++ M2) z2 = unsplit M z := by
      rw [unsplit_append_lines, ← hrest, ← unsplit_append, ← hbc, ← h]
      simp
    have hall : ∀ l ∈ ls ++ M2, '\n' ∉ l := by
      intro l hl
      rcases List.mem_append.1 hl with hl | hl
      · exact hls l hl
      · exact hM2 l hl
    obtain ⟨hMeq, hzeq⟩ := unsplit_inj hall hM hz2 hz key
    subst hMeq hzeq
    obtain ⟨hd2, hnb⟩ := doneOnlyLast_append parse hd
    rw [readLoop_cons parse id cs s hls hf hbc, ih f _ M2 z2 hf hM2 hz2 hrest hd2]
    by_cases hM2e : M2 = []
    · subst hM2e
      simp [processLines]
    · rw [processLines_append parse id M2 s (hnb hM2e)]

/-- Two deliveries of one body decode alike when no line but the last complete one
carries `done`. -/
theorem readLoop_chunk_invariant (parse : Decoder) (id : Nat) (chunks1 chunks2 : List Str)
    (s : LoopState) (M : List Str) (z : Str) (hM : ∀ l ∈ M, '\n' ∉ l) (hz : '\n' ∉ z)
    (h1 : chunks1.flatten = unsplit M z) (h2 : chunks2.flatten = unsplit M z)
    (hd : doneOnlyLast parse M = true) :
    readLoop parse id chunks1 [] s = readLoop parse id chunks2 [] s := by
  rw [readLoop_eq_processLines parse id chunks1 [] s M z (by simp) hM hz (by simpa using h1) hd,
    readLoop_eq_processLines parse id chunks2 [] s M z (by simp) hM hz (by simpa using h2) hd]

theorem streamBody_eq_unsplit (payloads : List Str) :
    streamBody payloads = unsplit (payloads.map eventLine) [] := by
  induction payloads with
  | nil => rfl
  | cons p ps ih =>
    simp only [streamBody, List.map_cons, List.flatten_cons, unsplit] at ih ⊢
    rw [← ih]
    simp [streamBody]

theorem startsWith_eventLine (p : Str) : startsWith (eventLine p) dataTag = true := by
  simp [startsWith, eventLine]

theorem drop_eventLine (p : Str) : (eventLine p).drop 6 = p := rfl

theorem newline_not_mem_eventLine {p : Str} (h : '\n' ∉ p) : '\n' ∉ eventLine p := by
  intro hmem
  rcases List.mem_append.1 hmem with h1 | h1
  · revert h1
    decide
  · exact h h1

theorem processLine_eventLine (parse : Decoder) (id : Nat) {p : Str} {data : Payload}
    (s : LoopState) (ht : trim p ≠ []) (hp : parse p = some data) :
    processLine parse id (eventLine p) s =
      (let s1 : LoopState :=
          match data.content with
          | some text =>
            { messages := appendContent id text s.messages,
              events := s.events ++ [Event.contentDelta text] }
          | none => s
        if data.done then
          ({ messages := stopStreaming id s1.messages, events := s1.events ++ [Event.done] }, true)
        else
          match data.error with
          | some e => ({ s1 with events := s1.events ++ [Event.error e] }, false)
          | none => (s1, false)) := by
  simp only [processLine, startsWith_eventLine, drop_eventLine, ht, hp, if_true, if_false]

theorem breaksLoop_eventLine (parse : Decoder) {p : Str} {data : Payload}
    (ht : trim p ≠ []) (hp : parse p = some data) :
    breaksLoop parse (eventLine p) = data.done := by
  simp [breaksLoop, startsWith_eventLine, drop_eventLine, ht, hp]

theorem updateFirst_append_last (id : Nat) (f : Message → Message) (before : List Message)
    (m : Message) (hb : ∀ x ∈ before, x.id ≠ id) (hm : m.id = id) :
    updateFirst id f (before ++ [m]) = before ++ [f m] := by
  induction before with
  | nil => simp [updateFirst, hm]
  | cons x xs ih =>
    have hx : x.id ≠ id := hb x (by simp)
    have hxs : ∀ y ∈ xs, y.id ≠ id := fun y hy => hb y (by simp [hy])
    simp [updateFirst, hx, ih hxs]

theorem updateFirst_of_absent (id : Nat) (f : Message → Message) (ms : List Message)
    (h : ∀ x ∈ ms, x.id ≠ id) : updateFirst id f ms = ms := by
  induction ms with
  | nil => rfl
  | cons x xs ih =>
    have hx : x.id ≠ id := h x (by simp)
    have hxs : ∀ y ∈ xs, y.id ≠ id := fun y hy => h y (by simp [hy])
    simp [updateFirst, hx, ih hxs]

theorem processLines_frames (parse : Decoder) (ai : Message) (before : List Message)
    (hb : ∀ x ∈ before, x.id ≠ ai.id)
    (hdone : parse donePayload = some { content := none, done := true, error := none }) :
    ∀ (frames : List (Str × Str)) (acc : Str) (ev : List Event),
      (∀ f ∈ frames, trim f.1 ≠ [] ∧
        parse f.1 = some { content := some f.2, done := false, error := none }) →
      processLines parse ai.id (frames.map (fun f => eventLine f.1) ++ [eventLine donePayload])
          { messages := before ++ [{ ai with content := acc }], events := ev } =
        { messages := before ++
            [{ ai with content := acc ++ (frames.map Prod.snd).flatten, streaming := false }],
          events := ev ++ frames.map (fun f => Event.contentDelta f.2) ++ [Event.done] } := by
  intro frames
  induction frames with
  | nil =>
    intro acc ev _
    have ht : trim donePayload ≠ [] := by decide
    simp only [List.map_nil, List.nil_append, processLines, processLine_eventLine parse ai.id _ ht hdone]
    simp [stopStreaming, updateFirst_append_last _ _ before _ hb]
  | cons f fs ih =>
    intro acc ev h
    obtain ⟨ht, hp⟩ := h f (by simp)
    have hfs : ∀ g ∈ fs, trim g.1 ≠ [] ∧
        parse g.1 = some { content := some g.2, done := false, error := none } :=
      fun g hg => h g (by simp [hg])
    simp only [List.map_cons, List.cons_append, processLines,
      processLine_eventLine parse ai.id _ ht hp]
    simp only [appendContent, updateFirst_append_last _ _ before _ hb]
    have := ih (acc ++ f.2) (ev ++ [Event.contentDelta f.2]) hfs
    simp only [Bool.false_eq_true, if_false, List.append_eq] at this ⊢
    rw [this]
    simp

theorem dropSeg_zero_len (pos : Nat) (cs : List Str) : dropSeg pos 0 cs = cs := by
  induction cs generalizing pos with
  | nil => rfl
  | cons c cs ih => simp [dropSeg, ih]

theorem dropSeg_cons_before {pos : Nat} (len : Nat) {c : Str} (cs : List Str)
    (h : c.length ≤ pos) : dropSeg pos len (c :: cs) = c :: dropSeg (pos - c.length) len cs := by
  have h1 : c.take pos = c := List.take_of_length_le h
  have h2 : c.drop (pos + len) = [] := List.drop_of_length_le (by omega)
  have h3 : c.length - pos = 0 := by omega
  simp [dropSeg, h1, h2, h3]

theorem dropSeg_cons_inside (A : Str) (len : Nat) (c : Str) (cs : List Str) :
    dropSeg A.length len ((A ++ c) :: cs) = (A ++ c.drop len) :: dropSeg 0 (len - c.length) cs := by
  have h3 : (A ++ c).length - A.length = c.length := by simp
  have h4 : A.length - (A ++ c).length = 0 := by simp
  simp only [dropSeg, h3, h4]
  congr 1
  rw [List.take_left', List.drop_append_eq_append_drop]
  · have : A.drop (A.length + len) = [] := List.drop_of_length_le (by omega)
    simp [this]
  · rfl

/-- The removal is the removal of the characters from the body. -/
theorem flatten_dropSeg (pos len : Nat) (cs : List Str) :
    (dropSeg pos len cs).flatten = cs.flatten.take pos ++ cs.flatten.drop (pos + len) := by
  induction cs generalizing pos len with
  | nil => simp [dropSeg]
  | cons c cs ih =>
    simp only [dropSeg, List.flatten_cons, ih, List.take_append_eq_append_take,
      List.drop_append_eq_append_drop, List.append_assoc]
    by_cases h : pos ≤ c.length
    · have h1 : pos - c.length = 0 := by omega
      have h2 : 0 + (len - (c.length - pos)) = pos + len - c.length := by omega
      simp [h1, h2]
    · have h1 : c.drop (pos + len) = [] := List.drop_of_length_le (by omega)
      have h2 : c.length - pos = 0 := by omega
      have h3 : pos - c.length + len = pos + len - c.length := by omega
      simp [h1, h2, h3]

theorem processLines_skip (parse : Decoder) (id : Nat) {bad : Str}
    (hbad : ∀ s, processLine parse id bad s = (s, false)) (L1 L2 : List Str) (s : LoopState) :
    processLines parse id (L1 ++ bad :: L2) s = processLines parse id (L1 ++ L2) s := by
  induction L1 generalizing s with
  | nil => simp [processLines, hbad]
  | cons l ls ih =>
    simp only [List.cons_append, processLines]
    cases hp : processLine parse id l s with
    | mk s1 b =>
      cases b
      · exact ih s1
      · rfl

theorem eq_append_of_le_length {x c r B : Str} (h : c ++ x = r ++ B) (hlen : r.length ≤ c.length) :
    c = r ++ c.drop r.length ∧ B = c.drop r.length ++ x := by
  rcases List.append_eq_append_iff.1 h with ⟨a, ha, hb⟩ | ⟨a, ha, hb⟩
  · have : a = [] := by
      have := congrArg List.length ha
      simp at this
      exact List.eq_nil_of_length_eq_zero (by omega)
    subst this
    simp at ha hb
    subst ha
    simp [hb]
  · subst ha
    simp [hb]

theorem newline_not_mem_of_append_eq {p r bad : Str} (h : p ++ r = bad ++ ['\n'])
    (hr : r ≠ []) (hbad : '\n' ∉ bad) : '\n' ∉ p := by
  rcases List.append_eq_append_iff.1 h with ⟨a, ha, _⟩ | ⟨a, ha, hb⟩
  · intro hp
    exact hbad (by rw [ha]; exact List.mem_append_left _ hp)
  · have ha2 : a = [] := by
      have := congrArg List.length hb
      simp at this
      have hr2 : 0 < r.length := List.length_pos.2 hr
      exact List.eq_nil_of_length_eq_zero (by omega)
    subst ha2
    simp at ha
    rw [ha]
    exact hbad

theorem readLoop_dropSeg_tail (parse : Decoder) (id : Nat) {bad : Str} (hnl : '\n' ∉ bad)
    (hbad : ∀ s, processLine parse id bad s = (s, false)) :
    ∀ (cs : List Str) (p r B : Str) (s : LoopState),
      '\n' ∉ p → p ++ r = bad ++ ['\n'] → cs.flatten = r ++ B →
      readLoop parse id cs p s = readLoop parse id (dropSeg 0 r.length cs) [] s := by
  intro cs
  induction cs with
  | nil =>
    intro p r B s hp hpr hfl
    exfalso
    have hr : r = [] := by
      have := congrArg List.length hfl
      simp at this
      exact List.eq_nil_of_length_eq_zero (by omega)
    subst hr
    apply hp
    simp at hpr
    rw [hpr]
    simp
  | cons c cs ih =>
    intro p r B s hp hpr hfl
    simp only [List.flatten_cons] at hfl
    have dz : dropSeg 0 r.length (c :: cs) =
        c.drop r.length :: dropSeg 0 (r.length - c.length) cs := by
      simpa using dropSeg_cons_inside [] r.length c cs
    rw [dz]
    by_cases hlen : r.length ≤ c.length
    · obtain ⟨hc, _⟩ := eq_append_of_le_length hfl hlen
      obtain ⟨L2, g, hL2, hg, hc2⟩ := exists_unsplit (c.drop r.length)
      have hL : p ++ c = unsplit (bad :: L2) g := by
        rw [hc, ← List.append_assoc, hpr, hc2]
        simp [unsplit]
      have hall : ∀ l ∈ bad :: L2, '\n' ∉ l := by
        intro l hl
        rcases List.mem_cons.1 hl with rfl | hl
        · exact hnl
        · exact hL2 l hl
      have h0 : r.length - c.length = 0 := by omega
      rw [readLoop_cons parse id cs s hall hg hL, h0, dropSeg_zero_len,
        readLoop_cons parse id cs s hL2 hg (show [] ++ c.drop r.length = unsplit L2 g from hc2)]
      have := processLines_skip parse id hbad [] L2 s
      simp only [List.nil_append] at this
      rw [this]
    · have hlen2 : c.length ≤ r.length := by omega
      obtain ⟨hr, hrest⟩ := eq_append_of_le_length hfl.symm hlen2
      have hr2 : r.drop c.length ≠ [] := by
        intro h0
        have := congrArg List.length h0
        simp at this
        omega
      have hpr2 : (p ++ c) ++ r.drop c.length = bad ++ ['\n'] := by
        rw [List.append_assoc, ← hr, hpr]
      have hpc : '\n' ∉ p ++ c := newline_not_mem_of_append_eq hpr2 hr2 hnl
      have hd : c.drop r.length = [] := List.drop_of_length_le hlen2
      have hlen3 : r.length - c.length = (r.drop c.length).length := by simp
      rw [readLoop_cons_of_not_mem parse id cs s hpc, hd,
        readLoop_cons_of_not_mem parse id _ s (by simp)]
      simp only [List.append_nil]
      rw [hlen3]
      exact ih (p ++ c) (r.drop c.length) B s hpc hpr2 hrest

theorem readLoop_dropSeg (parse : Decoder) (id : Nat) {bad : Str} (hnl : '\n' ∉ bad)
    (hbad : ∀ s, processLine parse id bad s = (s, false)) :
    ∀ (cs : List Str) (buffer A B : Str) (L : List Str) (s : LoopState),
      (∀ l ∈ L, '\n' ∉ l) → buffer ++ A = unsplit L [] →
      cs.flatten = A ++ (bad ++ '\n' :: B) →
      readLoop parse id cs buffer s =
        readLoop parse id (dropSeg A.length (bad.length + 1) cs) buffer s := by
  intro cs
  induction cs with
  | nil =>
    intro buffer A B L s _ _ hfl
    exfalso
    have := congrArg List.length hfl
    simp at this
    omega
  | cons c cs ih =>
    intro buffer A B L s hL hA hfl
    simp only [List.flatten_cons] at hfl
    by_cases hlen : c.length ≤ A.length
    · obtain ⟨hA2, hrest⟩ := eq_append_of_le_length hfl.symm hlen
      obtain ⟨ls, f, hls, hf, hbc⟩ := exists_unsplit (buffer ++ c)
      obtain ⟨L2, z2, hL2, hz2, hfa⟩ := exists_unsplit (f ++ A.drop c.length)
      have key : unsplit (ls ++ L2) z2 = unsplit L [] := by
        rw [unsplit_append_lines, ← hfa, ← unsplit_append, ← hbc, ← hA, List.append_assoc, ← hA2]
      have hall : ∀ l ∈ ls ++ L2, '\n' ∉ l := by
        intro l hl
        rcases List.mem_append.1 hl with hl | hl
        · exact hls l hl
        · exact hL2 l hl
      obtain ⟨_, hz⟩ := unsplit_inj hall hL hz2 (by simp) key
      subst hz
      have hlen3 : A.length - c.length = (A.drop c.length).length := by simp
      rw [dropSeg_cons_before _ _ hlen, readLoop_cons parse id cs s hls hf hbc,
        readLoop_cons parse id _ s hls hf hbc, hlen3]
      exact ih f (A.drop c.length) B L2 _ hL2 hfa hrest
    · have hlen2 : A.length ≤ c.length := by omega
      obtain ⟨hc, hX⟩ := eq_append_of_le_length hfl hlen2
      generalize c.drop A.length = c2 at hc hX
      subst hc
      rw [dropSeg_cons_inside]
      have hX2 : (bad ++ ['\n']) ++ B = c2 ++ cs.flatten := by simpa using hX
      by_cases hlen4 : bad.length + 1 ≤ c2.length
      · obtain ⟨hc2, _⟩ := eq_append_of_le_length hX2.symm (by simpa using hlen4)
        generalize c2.drop (bad ++ ['\n']).length = b2 at hc2
        subst hc2
        obtain ⟨L2, g, hL2, hg, hb2⟩ := exists_unsplit b2
        have hd : ((bad ++ ['\n']) ++ b2).drop (bad.length + 1) = b2 :=
          List.drop_left' (by simp)
        have h0 : bad.length + 1 - ((bad ++ ['\n']) ++ b2).length = 0 := by
          simp
        have hall : ∀ l ∈ L ++ bad :: L2, '\n' ∉ l := by
          intro l hl
          rcases List.mem_append.1 hl with hl | hl
          · exact hL l hl
          · rcases List.mem_cons.1 hl with rfl | hl
            · exact hnl
            · exact hL2 l hl
        have hall2 : ∀ l ∈ L ++ L2, '\n' ∉ l := by
          intro l hl
          rcases List.mem_append.1 hl with hl | hl
          · exact hL l hl
          · exact hL2 l hl
        have h1 : buffer ++ (A ++ ((bad ++ ['\n']) ++ b2)) = unsplit (L ++ bad :: L2) g := by
          rw [unsplit_append_lines, ← List.append_assoc, hA, unsplit_append, hb2]
          simp [unsplit]
        have h2 : buffer ++ (A ++ b2) = unsplit (L ++ L2) g := by
          rw [unsplit_append_lines, ← List.append_assoc, hA, unsplit_append, hb2]
          simp
        rw [hd, h0, dropSeg_zero_len, readLoop_cons parse id cs s hall hg h1,
          readLoop_cons parse id cs s hall2 hg h2, processLines_skip parse id hbad]
      · have hlen5 : c2.length ≤ (bad ++ ['\n']).length := by
          simp
          omega
        obtain ⟨hr, hrest⟩ := eq_append_of_le_length hX2 hlen5
        have hrl : ((bad ++ ['\n']).drop c2.length).length = bad.length + 1 - c2.length := by
          simp
        generalize (bad ++ ['\n']).drop c2.length = r at hr hrest hrl
        have hrne : r ≠ [] := by
          intro h0
          rw [h0] at hrl
          simp at hrl
          omega
        have hc2 : '\n' ∉ c2 := newline_not_mem_of_append_eq hr.symm hrne hnl
        have hd : c2.drop (bad.length + 1) = [] := List.drop_of_length_le (by omega)
        have h1 : buffer ++ (A ++ c2) = unsplit L c2 := by
          rw [← List.append_assoc, hA, unsplit_append]
          simp
        have h2 : buffer ++ (A ++ []) = unsplit L [] := by simpa using hA
        rw [hd, ← hrl, readLoop_cons parse id cs s hL hc2 h1,
          readLoop_cons parse id _ s hL (by simp) h2]
        exact readLoop_dropSeg_tail parse id hnl hbad cs c2 r B _ hc2 hr.symm hrest

theorem doneOnlyLast_cons (parse : Decoder) {l : Str} {rest : List Str}
    (hl : breaksLoop parse l = false) (h : doneOnlyLast parse rest = true) :
    doneOnlyLast parse (l :: rest) = true := by
  cases rest with
  | nil => rfl
  | cons m rest => simp [doneOnlyLast, hl, h]

theorem doneOnlyLast_append_singleton (parse : Decoder) (a : List Str) (last : Str)
    (h : ∀ l ∈ a, breaksLoop parse l = false) : doneOnlyLast parse (a ++ [last]) = true := by
  induction a with
  | nil => rfl
  | cons l ls ih =>
    exact doneOnlyLast_cons parse (h l (by simp)) (ih (fun x hx => h x (by simp [hx])))

theorem processLine_undecodable (parse : Decoder) (id : Nat) {payload : Str}
    (h : parse payload = none) (s : LoopState) :
    processLine parse id (eventLine payload) s = (s, false) := by
  simp only [processLine, startsWith_eventLine, drop_eventLine, h, if_true]
  split <;> rfl

theorem id_ne_of_mem_freshMessages (clock : Nat → Nat) (aiMessageId : Nat) :
    ∀ (history : List HistoryMessage) (i : Nat),
      (∀ k, k < history.length → clock (i + k) + (i + k) ≠ aiMessageId) →
      ∀ m ∈ freshMessages clock i history, m.id ≠ aiMessageId := by
  intro history
  induction history with
  | nil => intro i _ m hm; simp [freshMessages] at hm
  | cons h hs ih =>
    intro i hk m hm
    rcases List.mem_cons.1 hm with rfl | hm
    · simpa using hk 0 (by simp)
    · refine ih (i + 1) (fun k hlt => ?_) m hm
      have := hk (k + 1) (by simp; omega)
      rwa [show i + (k + 1) = i + 1 + k by omega] at this

theorem processLine_messages_of_absent (parse : Decoder) (id : Nat) (line : Str)
    (s : LoopState) (h : ∀ m ∈ s.messages, m.id ≠ id) :
    (processLine parse id line s).1.messages = s.messages := by
  have h1 : ∀ text, appendContent id text s.messages = s.messages :=
    fun text => updateFirst_of_absent id _ _ h
  have h2 : stopStreaming id s.messages = s.messages := updateFirst_of_absent id _ _ h
  unfold processLine
  by_cases c1 : startsWith line dataTag = true
  · by_cases c2 : trim (List.drop 6 line) = []
    · simp [c1, c2]
    · cases hp : parse (List.drop 6 line) with
      | none => simp [c1, c2, hp]
      | some data =>
        cases hc : data.content <;> cases hd : data.done <;> cases he : data.error <;>
          simp [c1, c2, hp, hc, hd, he, h1, h2]
  · simp [c1]

theorem uploadLoop_eq (post : Nat → UploadOutcome) (sessionID : Str) :
    ∀ (staged : List StagedFile) (k : Nat) (r : UploadResult),
      uploadLoop post sessionID k staged r =
        { fileIDs := r.fileIDs ++ acceptedIds post k staged,
          alerts := r.alerts ++ (failedNames post k staged).map (fun n => uploadFailedText ++ n),
          posted := r.posted ++ staged.map (fun f => (f, sessionID)) } := by
  intro staged
  induction staged with
  | nil => intro k r; simp [uploadLoop, acceptedIds, failedNames]
  | cons f fs ih =>
    intro k r
    rw [uploadLoop, ih]
    cases hp : post k with
    | failed => simp [acceptedIds, failedNames, acceptedId, hp]
    | responded file_id =>
      cases file_id with
      | none => simp [acceptedIds, failedNames, acceptedId, hp]
      | some v =>
        by_cases hv : v = []
        · simp [acceptedIds, failedNames, acceptedId, hp, hv]
        · simp [acceptedIds, failedNames, acceptedId, hp, hv]

theorem uploadFiles_eq (post : Nat → UploadOutcome) (sessionID : Str) (staged : List StagedFile) :
    uploadFiles post sessionID staged =
      { fileIDs := acceptedIds post 0 staged,
        alerts := (failedNames post 0 staged).map (fun n => uploadFailedText ++ n),
        posted := staged.map (fun f => (f, sessionID)) } := by
  simp [uploadFiles, uploadLoop_eq]

/-- The guard of line 225: a call made while a turn is outstanding changes nothing and
issues no request. -/
theorem sendMessage_while_typing (parse : Decoder) (env : TurnEnv) (st : ChatState)
    (h : st.isTyping = true) :
    sendMessage parse env st =
      { state := st, request := none, posted := [], alerts := [], events := [] } := by
  simp [sendMessage, guardRejects, h]

/-! ## The claims -/

/-- C1, evaluated where the code departs from it: the body `data: {"done":true}`,
`data: {"content":"x"}` (two lines) delivered in one chunk leaves the assistant message
empty, the same text delivered in two chunks cut at the first line break appends `x`
after the `done` event: the decoded events depend on the chunk boundaries. -/
theorem chunking_changes_decoded_events :
    [eventLine donePayload ++ '\n' :: (eventLine xPayload ++ ['\n'])].flatten =
        [eventLine donePayload ++ ['\n'], eventLine xPayload ++ ['\n']].flatten ∧
      (sendMessage wireParse
          (turnEnv (Response.received 200
            [eventLine donePayload ++ '\n' :: (eventLine xPayload ++ ['\n'])] none))
          readyState).state.messages.getLast? = some (aiMessage [] false) ∧
      (sendMessage wireParse
          (turnEnv (Response.received 200
            [eventLine donePayload ++ ['\n'], eventLine xPayload ++ ['\n']] none))
          readyState).state.messages.getLast? = some (aiMessage "x".toList false) ∧
      (sendMessage wireParse
          (turnEnv (Response.received 200
            [eventLine donePayload ++ '\n' :: (eventLine xPayload ++ ['\n'])] none))
          readyState).events = [Event.done] ∧
      (sendMessage wireParse
          (turnEnv (Response.received 200
            [eventLine donePayload ++ ['\n'], eventLine xPayload ++ ['\n']] none))
          readyState).events = [Event.done, Event.contentDelta "x".toList] := by
  decide

/-- C2, evaluated where the code departs from it: after a switch at clock reading 1000 to
a session of five messages (ids 1000 to 1004), a turn started at clock reading 1002 passes
the guard and receives the deltas `H`, `i` and `done` from an OK response, but the lookup
by id of line 307 finds the history message with id 1003 first: the deltas land there, and
the assistant message pushed for the turn is left empty with `streaming = true`. -/
theorem happy_path_fails_on_id_collision :
    guardRejects switchedState = false ∧
      hiChunks.flatten = streamBody (hiFrames.map Prod.fst ++ [donePayload]) ∧
      (sendMessage wireParse
          { turnEnv (Response.received 200 hiChunks none) with now1 := 1002, now2 := 1002 }
          switchedState).state.messages.getLast? =
        some { id := 1003, role := "assistant".toList, content := [], streaming := true } := by
  decide

/-- What the happy path does when the lookup by id finds the message of the turn.  When
`sendMessage` passes its guard, the response is OK and its body, cut into chunks in any
way, is the lines `data: p_i` (with `p_i` decoding to the content `d_i`) followed by the
line `data: {"done":true}`, and no message of the list (the user message just pushed
included) already carries the id `Date.now() + 1` of the new assistant message, the call
leaves the list extended by the user message and by the assistant message with content
`d_1 ++ ... ++ d_n` and `streaming = false`, and the decoded events are the deltas in
order followed by `done`.  Without the last condition the deltas go to the older message,
see `happy_path_fails_on_id_collision`. -/
theorem sendMessage_accumulates_in_order (parse : Decoder) (env : TurnEnv) (st : ChatState)
    (frames : List (Str × Str)) (status : Nat) (chunks : List Str)
    (hguard : guardRejects st = false)
    (hresp : env.response = Response.received status chunks none)
    (hok : Response.isOk status = true)
    (hbody : chunks.flatten = streamBody (frames.map Prod.fst ++ [donePayload]))
    (hframes : ∀ f ∈ frames, '\n' ∉ f.1 ∧ trim f.1 ≠ [] ∧
        parse f.1 = some { content := some f.2, done := false, error := none })
    (hdone : parse donePayload = some { content := none, done := true, error := none })
    (hfresh : ∀ m ∈ st.messages, m.id ≠ env.now2 + 1) (hclock : env.now1 ≠ env.now2 + 1) :
    (sendMessage parse env st).state.messages =
        st.messages ++
          [{ id := env.now1, role := "user".toList,
             content := userContent (trim st.inputMessage) st.uploadedFiles, streaming := false },
           { id := env.now2 + 1, role := "assistant".toList,
             content := (frames.map Prod.snd).flatten, streaming := false }] ∧
      (sendMessage parse env st).events =
        frames.map (fun f => Event.contentDelta f.2) ++ [Event.done] := by
  have hM : (frames.map Prod.fst ++ [donePayload]).map eventLine =
      frames.map (fun f => eventLine f.1) ++ [eventLine donePayload] := by
    simp [List.map_append, List.map_map, Function.comp_def]
  have hloop : ∀ s, readLoop parse (env.now2 + 1) chunks [] s =
      processLines parse (env.now2 + 1)
        (frames.map (fun f => eventLine f.1) ++ [eventLine donePayload]) s := by
    intro s
    apply readLoop_eq_processLines parse (env.now2 + 1) chunks [] s _ []
    · simp
    · intro l hl
      rcases List.mem_append.1 hl with hl | hl
      · obtain ⟨f, hf, rfl⟩ := List.mem_map.1 hl
        exact newline_not_mem_eventLine (hframes f hf).1
      · rw [List.mem_singleton.1 hl]
        decide
    · simp
    · rw [List.nil_append, hbody, streamBody_eq_unsplit, hM]
    · apply doneOnlyLast_append_singleton
      intro l hl
      obtain ⟨f, hf, rfl⟩ := List.mem_map.1 hl
      rw [breaksLoop_eventLine parse (hframes f hf).2.1 (hframes f hf).2.2]
  have hbefore : ∀ x ∈ st.messages ++
      [({ id := env.now1, role := "user".toList,
          content := userContent (trim st.inputMessage) st.uploadedFiles,
          streaming := false } : Message)], x.id ≠ env.now2 + 1 := by
    intro x hx
    rcases List.mem_append.1 hx with hx | hx
    · exact hfresh x hx
    · rw [List.mem_singleton.1 hx]
      exact hclock
  have hrun := processLines_frames parse
    { id := env.now2 + 1, role := "assistant".toList, content := [], streaming := true }
    _ hbefore hdone frames [] [] (fun f hf => (hframes f hf).2)
  simp only [sendMessage, hguard, hresp, hok, hloop, if_true, Bool.false_eq_true, if_false]
  simp only [List.nil_append] at hrun
  rw [hrun]
  cases env.sessions <;> simp [fetchSessions]

/-- The scenario of the deltas `H`, `i` and `done`, cut into five chunks, in a list
without any other message. -/
theorem sendMessage_accumulates_in_order_witness :
    guardRejects readyState = false ∧
      hiChunks.flatten = streamBody (hiFrames.map Prod.fst ++ [donePayload]) ∧
      (sendMessage wireParse (turnEnv (Response.received 200 hiChunks none))
          readyState).state.messages =
        [{ id := 1000, role := "user".toList, content := "hi".toList, streaming := false },
         aiMessage "Hi".toList false] :=
  ⟨by decide, by decide,
    (sendMessage_accumulates_in_order wireParse (turnEnv (Response.received 200 hiChunks none))
      readyState hiFrames 200 hiChunks (by decide) rfl (by decide) (by decide) (by decide)
      (by decide) (by decide) (by decide)).1⟩

/-- C3, evaluated where the code departs from it: the stream `data: {"error":"boom"}`,
`data: {"content":"x"}` ends with the assistant message still streaming, its content
being the later delta `x` and not the apology followed by `boom`: the error line is
decoded, then swallowed by the inner `catch`, and the loop goes on. -/
theorem error_frame_is_swallowed :
    (sendMessage wireParse
        (turnEnv (Response.received 200
          [eventLine boomPayload ++ '\n' :: (eventLine xPayload ++ ['\n'])] none))
        readyState).state.messages.getLast? = some (aiMessage "x".toList true) ∧
      (sendMessage wireParse
        (turnEnv (Response.received 200
          [eventLine boomPayload ++ '\n' :: (eventLine xPayload ++ ['\n'])] none))
        readyState).events = [Event.error "boom".toList, Event.contentDelta "x".toList] := by
  decide

/-- C4, evaluated where the code departs from it: an OK response whose body is the single
line `data: {"content":"x"}` and then ends leaves the assistant message with
`streaming = true` when `sendMessage` returns. -/
theorem end_of_body_leaves_streaming :
    (sendMessage wireParse
        (turnEnv (Response.received 200 [eventLine xPayload ++ ['\n']] none))
        readyState).state.messages.getLast? = some (aiMessage "x".toList true) ∧
      (sendMessage wireParse
        (turnEnv (Response.received 200 [eventLine xPayload ++ ['\n']] none))
        readyState).state.isTyping = false := by
  decide

/-- C5, evaluated where the code departs from it: from the initial state, creating a
session and sending two turns whose bodies end without a `done` line leaves two messages
with `streaming = true` in the list. -/
theorem two_streaming_messages_reachable :
    ((run wireParse initialState
        [Op.selectModel "m".toList,
         Op.create (some "s1".toList) none,
         Op.typeInput "hi".toList,
         Op.send (turnEnv (Response.received 200 [eventLine xPayload ++ ['\n']] none)),
         Op.typeInput "again".toList,
         Op.send { turnEnv (Response.received 200 [eventLine xPayload ++ ['\n']] none) with
                   now1 := 5000, now2 := 5000 }]).messages.filter
        (fun m => m.streaming)).map (fun m => m.id) = [1001, 5001] := by
  decide

/-- C6: the outstanding-turn flag is always cleared.  Whenever `sendMessage` passes its
guard, whatever the uploads, the clock and the answer to the stream request are (the
request rejects, the status is not OK, a read fails midway, an `error` line, a `done`
line, or the body just ends), `isTyping` is false when the call returns, and the state it
leaves, once a non-blank text is typed, passes the guard again. -/
theorem sendMessage_clears_isTyping (parse : Decoder) (env : TurnEnv) (st : ChatState)
    (hguard : guardRejects st = false) :
    (sendMessage parse env st).state.isTyping = false ∧
      ∀ text : Str, trim text ≠ [] →
        guardRejects { (sendMessage parse env st).state with inputMessage := text } = false := by
  have hs : st.sessionId ≠ [] := by
    intro h
    simp [guardRejects, h] at hguard
  have key : (sendMessage parse env st).state.isTyping = false ∧
      (sendMessage parse env st).state.sessionId = st.sessionId := by
    simp only [sendMessage, hguard, Bool.false_eq_true, if_false]
    cases env.response with
    | rejected message => exact ⟨rfl, rfl⟩
    | received status chunks failure =>
      by_cases hok : Response.isOk status = true
      · cases failure with
        | some message => simp [hok]
        | none => cases env.sessions <;> simp [hok, fetchSessions]
      · simp [hok]
  refine ⟨key.1, fun text ht => ?_⟩
  simp [guardRejects, key.1, key.2, hs, ht]

/-- C6, witness: a turn answered with status 500. -/
theorem sendMessage_clears_isTyping_witness :
    guardRejects readyState = false ∧
      (sendMessage wireParse (turnEnv (Response.received 500 [] none))
        readyState).state.isTyping = false ∧
      guardRejects
        { (sendMessage wireParse (turnEnv (Response.received 500 [] none)) readyState).state with
          inputMessage := "again".toList } = false :=
  ⟨by decide,
    (sendMessage_clears_isTyping wireParse (turnEnv (Response.received 500 [] none)) readyState
      (by decide)).1,
    (sendMessage_clears_isTyping wireParse (turnEnv (Response.received 500 [] none)) readyState
      (by decide)).2 "again".toList (by decide)⟩

/-- C7: a malformed event line is dropped without aborting the stream.  Let the body of
the response be the complete lines `before`, then the line `data: <payload>` with its
line break, then `rest`, delivered in any chunks, and let `payload` be undecodable
(`JSON.parse` throws on it).  Then `sendMessage` leaves the same state (messages with
their content and streaming flag, `isTyping`, everything else), issues the same request
and decodes the same sequence of events as on the same delivery with the characters of
that line removed: the line contributes no delta and does not end the turn. -/
theorem sendMessage_drops_malformed_line (parse : Decoder) (env : TurnEnv) (st : ChatState)
    (status : Nat) (chunks : List Str) (failure : Option Str)
    (before : List Str) (payload rest : Str)
    (hresp : env.response = Response.received status chunks failure)
    (hbefore : ∀ l ∈ before, '\n' ∉ l)
    (hbody : chunks.flatten = unsplit before (eventLine payload ++ '\n' :: rest))
    (hpayload : '\n' ∉ payload) (hjson : parse payload = none) :
    sendMessage parse env st =
      sendMessage parse
        { env with
          response :=
            Response.received status
              (dropSeg (unsplit before []).length ((eventLine payload).length + 1) chunks)
              failure } st := by
  have hfl : chunks.flatten = unsplit before [] ++ (eventLine payload ++ '\n' :: rest) := by
    rw [hbody, unsplit_append]
    simp
  have hloop : ∀ id s, readLoop parse id chunks [] s =
      readLoop parse id
        (dropSeg (unsplit before []).length ((eventLine payload).length + 1) chunks) [] s :=
    fun id s =>
      readLoop_dropSeg parse id (newline_not_mem_eventLine hpayload)
        (processLine_undecodable parse id hjson) chunks [] (unsplit before []) rest before s
        hbefore (by simp) hfl
  simp only [sendMessage, hresp, hloop]

/-- C7, witness: the line `data: {not json` between two lines `data: {"content":"x"}`,
the first chunk ending inside the malformed line. -/
theorem sendMessage_drops_malformed_line_witness :
    sendMessage wireParse
        (turnEnv (Response.received 200
          [eventLine xPayload ++ '\n' :: "data: \x7bno".toList,
           "t json\n".toList ++ (eventLine xPayload ++ ['\n'])] none)) readyState =
      sendMessage wireParse
        (turnEnv (Response.received 200
          [eventLine xPayload ++ ['\n'], eventLine xPayload ++ ['\n']] none)) readyState :=
  sendMessage_drops_malformed_line wireParse
    (turnEnv (Response.received 200
      [eventLine xPayload ++ '\n' :: "data: \x7bno".toList,
       "t json\n".toList ++ (eventLine xPayload ++ ['\n'])] none)) readyState 200
    [eventLine xPayload ++ '\n' :: "data: \x7bno".toList,
     "t json\n".toList ++ (eventLine xPayload ++ ['\n'])] none
    [eventLine xPayload] notJson (eventLine xPayload ++ ['\n']) rfl (by decide) (by decide)
    (by decide) (by decide)

/-- C8, evaluated where the code departs from it: a turn whose assistant message has id
1001 (started at clock reading 1000) is streaming, the switch to another session of two
messages reads the clock at 1000 and gives them the ids 1000 and 1001, and the next delta
`x` of the abandoned turn is appended to the second message of the new session. -/
theorem delta_after_switch_hits_colliding_id :
    "s2".toList ≠ readyState.sessionId ∧
      (switchSession { SessionID := "s2".toList, ModelName := "m".toList }
          (some [{ role := "user".toList, content := "q".toList },
                 { role := "assistant".toList, content := "a".toList }])
          (fun _ => 1000) readyState).messages =
        [{ id := 1000, role := "user".toList, content := "q".toList, streaming := false },
         { id := 1001, role := "assistant".toList, content := "a".toList, streaming := false }] ∧
      (processLine wireParse 1001 (eventLine xPayload)
          { messages :=
              (switchSession { SessionID := "s2".toList, ModelName := "m".toList }
                (some [{ role := "user".toList, content := "q".toList },
                       { role := "assistant".toList, content := "a".toList }])
                (fun _ => 1000) readyState).messages,
            events := [] }).1.messages =
        [{ id := 1000, role := "user".toList, content := "q".toList, streaming := false },
         { id := 1001, role := "assistant".toList, content := "ax".toList, streaming := false }] := by
  decide

/-- What a line of an abandoned turn does after a switch whose ids miss the id of the
turn.  When `switchSession` to another session has replaced the list by the history under
the ids `clock index + index` and none of them equals `aiMessageId`, any line decoded
afterwards for the abandoned turn leaves every message of the list as it was.  When one
of them equals `aiMessageId` the line is applied to that message, see
`delta_after_switch_hits_colliding_id`. -/
theorem delta_after_switch_is_discarded (parse : Decoder) (aiMessageId : Nat)
    (session : Session) (history : Option (List HistoryMessage)) (clock : Nat → Nat)
    (st : ChatState) (line : Str) (events : List Event)
    (hswitch : session.SessionID ≠ st.sessionId)
    (hfresh : ∀ index, index < (history.getD []).length → clock index + index ≠ aiMessageId) :
    (processLine parse aiMessageId line
        { messages := (switchSession session history clock st).messages,
          events := events }).1.messages =
      (switchSession session history clock st).messages := by
  apply processLine_messages_of_absent
  simp only [switchSession, hswitch, if_false]
  exact id_ne_of_mem_freshMessages clock aiMessageId _ 0 (by simpa using hfresh)

/-- The same switch two milliseconds later: the delta is discarded. -/
theorem delta_after_switch_is_discarded_witness :
    (processLine wireParse 1001 (eventLine xPayload)
        { messages :=
            (switchSession { SessionID := "s2".toList, ModelName := "m".toList }
              (some [{ role := "user".toList, content := "q".toList },
                     { role := "assistant".toList, content := "a".toList }])
              (fun _ => 1002) readyState).messages,
          events := [] }).1.messages =
      (switchSession { SessionID := "s2".toList, ModelName := "m".toList }
        (some [{ role := "user".toList, content := "q".toList },
               { role := "assistant".toList, content := "a".toList }])
        (fun _ => 1002) readyState).messages :=
  delta_after_switch_is_discarded wireParse 1001
    { SessionID := "s2".toList, ModelName := "m".toList }
    (some [{ role := "user".toList, content := "q".toList },
           { role := "assistant".toList, content := "a".toList }])
    (fun _ => 1002) readyState (eventLine xPayload) [] (by decide) (by decide)

/-- C9 as stated fails for a resolved upload whose `file_id` is the empty string: the
upload succeeded with remote id `""`, yet the returned array is empty and nothing is
reported. -/
theorem uploadFiles_skips_falsy_id :
    respondedIds (fun _ => UploadOutcome.responded (some [])) 0
        [{ id := 1, name := "a.txt".toList, size := 10 }] = [[]] ∧
      (uploadFiles (fun _ => UploadOutcome.responded (some [])) "s1".toList
        [{ id := 1, name := "a.txt".toList, size := 10 }]).fileIDs = [] ∧
      (uploadFiles (fun _ => UploadOutcome.responded (some [])) "s1".toList
        [{ id := 1, name := "a.txt".toList, size := 10 }]).alerts = [] := by
  decide

/-- C9, amended: attachment flush with partial failure.  For every staged list and every
outcome of each upload request, a turn that passes the guard posts every staged file
exactly once, in staged order and against the active session, whatever fails on the way;
the array `uploadFiles` returns is exactly the truthy (non-empty) `file_id`s of the
resolved requests, in staged order; an alert naming the file is raised for exactly the
failed requests, in staged order; and the stream request carries exactly the returned
array as `file_ids`. -/
theorem sendMessage_flushes_attachments (parse : Decoder) (env : TurnEnv) (st : ChatState)
    (hguard : guardRejects st = false) :
    (sendMessage parse env st).posted = st.uploadedFiles.map (fun f => (f, st.sessionId)) ∧
      (uploadFiles env.upload st.sessionId st.uploadedFiles).fileIDs =
        acceptedIds env.upload 0 st.uploadedFiles ∧
      (sendMessage parse env st).alerts =
        (failedNames env.upload 0 st.uploadedFiles).map (fun n => uploadFailedText ++ n) ∧
      (sendMessage parse env st).request =
        some { session_id := st.sessionId, model_name := st.selectedModel,
               message := trim st.inputMessage, persona := st.selectedPersona,
               file_ids := (uploadFiles env.upload st.sessionId st.uploadedFiles).fileIDs } := by
  have hup : (if st.uploadedFiles.length > 0 then
        uploadFiles env.upload st.sessionId st.uploadedFiles
      else { fileIDs := [], alerts := [], posted := [] }) =
      uploadFiles env.upload st.sessionId st.uploadedFiles := by
    cases h : st.uploadedFiles with
    | nil => simp [uploadFiles, uploadLoop]
    | cons f fs => simp
  simp only [sendMessage, hguard, Bool.false_eq_true, if_false, hup]
  rw [uploadFiles_eq]
  cases env.response with
  | rejected message => simp
  | received status chunks failure =>
    by_cases hok : Response.isOk status = true
    · cases failure <;> simp [hok]
    · simp [hok]

/-- C9, witness: three staged files, the second upload failing; the ids of files 1 and 3
are returned in that order and sent as `file_ids`, file 2 is reported. -/
theorem sendMessage_flushes_attachments_witness :
    guardRejects stagedState = false ∧
      (uploadFiles secondFails "s1".toList threeFiles).fileIDs = ["f1".toList, "f3".toList] ∧
      (sendMessage wireParse
          { turnEnv (Response.received 200 hiChunks none) with upload := secondFails }
          stagedState).alerts = [uploadFailedText ++ "b.txt".toList] ∧
      (sendMessage wireParse
          { turnEnv (Response.received 200 hiChunks none) with upload := secondFails }
          stagedState).request =
        some { session_id := "s1".toList, model_name := "m".toList, message := "hi".toList,
               persona := [], file_ids := ["f1".toList, "f3".toList] } :=
  ⟨by decide,
    (sendMessage_flushes_attachments wireParse
      { turnEnv (Response.received 200 hiChunks none) with upload := secondFails }
      stagedState (by decide)).2.1,
    (sendMessage_flushes_attachments wireParse
      { turnEnv (Response.received 200 hiChunks none) with upload := secondFails }
      stagedState (by decide)).2.2.1,
    (sendMessage_flushes_attachments wireParse
      { turnEnv (Response.received 200 hiChunks none) with upload := secondFails }
      stagedState (by decide)).2.2.2⟩

/-- C10, evaluated where the code departs from it: with three files staged and the stream
request answered with status 500, the staged list is still the three files when
`sendMessage` returns, and the next turn posts all three again. -/
theorem staged_files_survive_failed_turn :
    (sendMessage wireParse
        { turnEnv (Response.received 500 [] none) with upload := secondFails }
        stagedState).state.uploadedFiles = threeFiles ∧
      (sendMessage wireParse
        { turnEnv (Response.received 200 hiChunks none) with upload := secondFails }
        { (sendMessage wireParse
            { turnEnv (Response.received 500 [] none) with upload := secondFails }
            stagedState).state with inputMessage := "again".toList }).posted =
        threeFiles.map (fun f => (f, "s1".toList)) := by
  decide

end SmallPlatform
